import Mathlib

/-!
Shallow embedding of the microclaw firecracker-saas control plane core
(`control-plane/src/{network,tenant,proxy,db,firecracker,api}.rs`) and
verification of its specification.

Modelling conventions:
* Rust `HashMap<String, V>` is modelled as an association list with unique
  keys; `insert` overwrites an existing binding, `remove` drops it.
* Rust `u16` / `u32` values are modelled as `Nat`; every arithmetic step in
  the modelled code is guarded well below `2^16` (the allocator increments
  `next_index` only when `next_index ≤ 65000`), so no overflow wrap occurs
  and `Nat` is faithful.
* Rust `format!("{}", n)` on an integer renders decimal digits, modelled by
  `Nat.repr` (via `toString`).
* Fallible Rust code (`anyhow::Result`) is modelled with `Except`/`Option`.
-/

namespace Microclaw

/-- Association-list membership test, the model of `HashMap::contains_key`. -/
def alContains {α : Type} (m : List (String × α)) (k : String) : Bool :=
  m.any (fun p => p.1 == k)

/-- Association-list lookup, the model of `HashMap::get`. -/
def alGet {α : Type} (m : List (String × α)) (k : String) : Option α :=
  (m.find? (fun p => p.1 == k)).map Prod.snd

/-- Association-list insert, the model of `HashMap::insert`: overwrites an
existing binding for the key, otherwise appends a new one. -/
def alInsert {α : Type} (m : List (String × α)) (k : String) (v : α) :
    List (String × α) :=
  if alContains m k then
    m.map (fun p => if p.1 == k then (k, v) else p)
  else
    m ++ [(k, v)]

/-- Association-list removal, the model of `HashMap::remove`. -/
def alRemove {α : Type} (m : List (String × α)) (k : String) :
    List (String × α) :=
  m.filter (fun p => p.1 != k)

theorem alInsert_of_not_contains {α : Type} {m : List (String × α)}
    {k : String} (v : α) (h : alContains m k = false) :
    alInsert m k v = m ++ [(k, v)] := by
  simp [alInsert, h]

theorem alContains_append_single {α : Type} (m : List (String × α))
    (k k' : String) (v : α) :
    alContains (m ++ [(k, v)]) k' = (alContains m k' || k == k') := by
  simp [alContains]

theorem find?_none_of_not_contains {α : Type} {m : List (String × α)}
    {k : String} (h : alContains m k = false) :
    m.find? (fun p => p.1 == k) = none := by
  have h' : m.any (fun p => p.1 == k) = false := h
  exact List.find?_eq_none.mpr (List.any_eq_false.mp h')

theorem alGet_of_not_contains {α : Type} {m : List (String × α)}
    {k : String} (h : alContains m k = false) : alGet m k = none := by
  simp [alGet, find?_none_of_not_contains h]

theorem alGet_append_single_self {α : Type} {m : List (String × α)}
    {k : String} (v : α) (h : alContains m k = false) :
    alGet (m ++ [(k, v)]) k = some v := by
  simp [alGet, List.find?_append, find?_none_of_not_contains h]

theorem alGet_append_single_ne {α : Type} (m : List (String × α))
    {k k' : String} (v : α) (h : k ≠ k') :
    alGet (m ++ [(k, v)]) k' = alGet m k' := by
  rcases hf : m.find? (fun p => p.1 == k') with _ | p
  · have : (k == k') = false := beq_eq_false_iff_ne.mpr h
    simp [alGet, List.find?_append, hf, this]
  · simp [alGet, List.find?_append, hf]

/-! ## Character-level string utilities

Rust's `str::split(char)` is modelled on the underlying character list.
Like the Rust iterator, it yields the (possibly empty) pieces between
separator occurrences; splitting the empty string yields one empty piece. -/

/-- Model of Rust `s.split(sep)` (collected to a list). -/
def splitOnChar (sep : Char) : List Char → List (List Char)
  | [] => [[]]
  | c :: cs =>
    let r := splitOnChar sep cs
    if c = sep then [] :: r
    else
      match r with
      | [] => [[c]]
      | p :: ps => (c :: p) :: ps

theorem splitOnChar_ne_nil (sep : Char) (l : List Char) :
    splitOnChar sep l ≠ [] := by
  cases l with
  | nil => simp [splitOnChar]
  | cons c cs =>
    simp only [splitOnChar]
    by_cases h : c = sep
    · simp [h]
    · simp only [h, if_false]
      rcases splitOnChar sep cs with _ | ⟨p, ps⟩ <;> simp

/-- If the prefix contains no separator, splitting `pre ++ sep :: rest`
yields `pre` as the first piece followed by the split of `rest`. -/
theorem splitOnChar_append (sep : Char) (pre rest : List Char)
    (h : sep ∉ pre) :
    splitOnChar sep (pre ++ sep :: rest) = pre :: splitOnChar sep rest := by
  induction pre with
  | nil => simp [splitOnChar]
  | cons c cs ih =>
    have hc : c ≠ sep := fun hcs => h (by simp [hcs])
    have ih' := ih (fun hm => h (by simp [hm]))
    simp only [List.cons_append, splitOnChar, hc, if_false, List.append_eq,
      ih']

/-- If `l` contains no separator, it is returned as the single piece. -/
theorem splitOnChar_no_sep (sep : Char) (l : List Char) (h : sep ∉ l) :
    splitOnChar sep l = [l] := by
  induction l with
  | nil => simp [splitOnChar]
  | cons c cs ih =>
    have hc : c ≠ sep := fun hcs => h (by simp [hcs])
    have ih' := ih (fun hm => h (by simp [hm]))
    simp [splitOnChar, hc, ih']

/-- Model of Rust `Vec<&str>::join(".")`. -/
def joinDot : List String → String
  | [] => ""
  | [s] => s
  | s :: rest => s ++ "." ++ joinDot rest

/-! ## SubnetAllocator (`network.rs`) -/

/-- Errors raised by `SubnetAllocator::allocate` (source: `anyhow::bail!`
with the corresponding messages; classified per the spec error taxonomy). -/
inductive AllocErr : Type
  | alreadyAllocated (tenantId : String)
  | poolExhausted
deriving DecidableEq, Repr

/-- `SubnetAllocator` state (`network.rs` lines 7-11). `next_index` is a
`u16` in the source; it is only ever incremented under a `≤ 65000` guard, so
`Nat` is a faithful model. -/
structure SubnetAllocator : Type where
  base_network : String
  next_index : Nat
  allocated : List (String × Nat)
deriving DecidableEq, Repr

/-- `SubnetAllocator::new` (`network.rs` lines 14-23): keep the first two
dot-separated components of the CIDR as the base network. -/
def SubnetAllocator.new (cidr : String) : SubnetAllocator :=
  { base_network :=
      joinDot (((splitOnChar '.' cidr.data).take 2).map String.mk)
    next_index := 1
    allocated := [] }

/-- `SubnetAllocator::allocate` (`network.rs` lines 26-53). On success the
updated allocator is returned in the payload; on failure the caller's state
is untouched (the source bails before any mutation of `self`). -/
def SubnetAllocator.allocate (s : SubnetAllocator) (tenantId : String) :
    Except AllocErr (String × String × SubnetAllocator) :=
  if alContains s.allocated tenantId then
    .error (.alreadyAllocated tenantId)
  else if s.next_index > 65000 then
    .error .poolExhausted
  else
    let index := s.next_index
    let gateway_ip := s.base_network ++ "." ++ toString index ++ ".1"
    let vm_ip := s.base_network ++ "." ++ toString index ++ ".2"
    .ok (gateway_ip, vm_ip,
      { s with
        next_index := s.next_index + 1
        allocated := alInsert s.allocated tenantId index })

/-- `SubnetAllocator::release` (`network.rs` lines 55-57). -/
def SubnetAllocator.release (s : SubnetAllocator) (tenantId : String) :
    SubnetAllocator :=
  { s with allocated := alRemove s.allocated tenantId }

/-- `SubnetAllocator::set_next_index` (`network.rs` lines 60-62). -/
def SubnetAllocator.set_next_index (s : SubnetAllocator) (index : Nat) :
    SubnetAllocator :=
  { s with next_index := index }

/-- `SubnetAllocator::restore_allocation` (`network.rs` lines 65-67). -/
def SubnetAllocator.restore_allocation (s : SubnetAllocator)
    (tenantId : String) (index : Nat) : SubnetAllocator :=
  { s with allocated := alInsert s.allocated tenantId index }

/-- Run a sequence of `allocate` calls, collecting each call's result and
threading the allocator state (failed calls leave the state unchanged). -/
def allocSeq (s : SubnetAllocator) :
    List String → List (Except AllocErr (String × String)) × SubnetAllocator
  | [] => ([], s)
  | t :: ts =>
    match s.allocate t with
    | .ok (gw, vm, s') =>
      let r := allocSeq s' ts
      (.ok (gw, vm) :: r.1, r.2)
    | .error e =>
      let r := allocSeq s ts
      (.error e :: r.1, r.2)

theorem allocSeq_append (s : SubnetAllocator) (l₁ l₂ : List String) :
    allocSeq s (l₁ ++ l₂) =
      ((allocSeq s l₁).1 ++ (allocSeq (allocSeq s l₁).2 l₂).1,
        (allocSeq (allocSeq s l₁).2 l₂).2) := by
  induction l₁ generalizing s with
  | nil => simp [allocSeq]
  | cons t ts ih =>
    simp only [List.cons_append, allocSeq]
    rcases h : s.allocate t with e | ⟨gw, vm, s'⟩ <;> simp [h, ih]

/-- Core run lemma: starting from a state whose `next_index` can accommodate
all of `ids` (pairwise-distinct, none already allocated), every call
succeeds with the indices `next_index, next_index+1, …`, the final cursor
has advanced by `ids.length`, and the final map contains exactly the old
keys plus `ids`. -/
theorem allocSeq_ok (ids : List String) (s : SubnetAllocator)
    (hnodup : ids.Nodup)
    (hfresh : ∀ t ∈ ids, alContains s.allocated t = false)
    (hroom : s.next_index + ids.length ≤ 65001) :
    (allocSeq s ids).1 =
      (List.range ids.length).map (fun i =>
        .ok (s.base_network ++ "." ++ toString (s.next_index + i) ++ ".1",
             s.base_network ++ "." ++ toString (s.next_index + i) ++ ".2")) ∧
    (allocSeq s ids).2.next_index = s.next_index + ids.length ∧
    (allocSeq s ids).2.base_network = s.base_network ∧
    (∀ t, alContains (allocSeq s ids).2.allocated t =
      (alContains s.allocated t || decide (t ∈ ids))) := by
  induction ids generalizing s with
  | nil => simp [allocSeq]
  | cons t ts ih =>
    have hct : alContains s.allocated t = false := hfresh t (by simp)
    have hle : ¬ s.next_index > 65000 := by
      simp only [List.length_cons] at hroom; omega
    have halloc : s.allocate t =
        .ok (s.base_network ++ "." ++ toString s.next_index ++ ".1",
             s.base_network ++ "." ++ toString s.next_index ++ ".2",
             { s with
               next_index := s.next_index + 1
               allocated := s.allocated ++ [(t, s.next_index)] }) := by
      simp [SubnetAllocator.allocate, hct, hle,
        alInsert_of_not_contains _ hct]
    have hfresh' : ∀ u ∈ ts,
        alContains (s.allocated ++ [(t, s.next_index)]) u = false := by
      intro u hu
      have h1 : alContains s.allocated u = false := hfresh u (by simp [hu])
      have h2 : t ≠ u := by
        rintro rfl; exact (List.nodup_cons.mp hnodup).1 hu
      simp [alContains_append_single, h1, beq_eq_false_iff_ne.mpr h2]
    have ih' := ih
      { s with
        next_index := s.next_index + 1
        allocated := s.allocated ++ [(t, s.next_index)] }
      (List.nodup_cons.mp hnodup).2 hfresh'
      (by simp only [List.length_cons] at hroom; simpa using by omega)
    refine ⟨?_, ?_, ?_, ?_⟩
    · simp only [allocSeq, halloc, List.length_cons, List.range_succ_eq_map,
        List.map_cons, List.map_map]
      refine congrArg₂ List.cons (by simp) ?_
      rw [ih'.1]
      refine List.map_congr_left fun i _ => ?_
      simp [Function.comp, Nat.add_comm, Nat.add_assoc, Nat.add_left_comm]
    · simp only [allocSeq, halloc]
      rw [ih'.2.1]
      simp [List.length_cons]; omega
    · simp only [allocSeq, halloc]
      rw [ih'.2.2.1]
    · intro u
      simp only [allocSeq, halloc]
      rw [ih'.2.2.2 u]
      simp only [alContains_append_single]
      by_cases hmem : u ∈ ts
      · simp [hmem]
      · by_cases heq : t = u
        · subst heq; simp
        · have hne : ¬ u = t := fun h => heq h.symm
          have h1 : (t == u) = false := beq_eq_false_iff_ne.mpr heq
          have h2 : decide (u ∈ ts) = false := by simp [hmem]
          have h3 : decide (u ∈ t :: ts) = false := by simp [hmem, hne]
          simp [h1, h2, h3, hne]

theorem base_network_new : (SubnetAllocator.new "172.16.0.0/16").base_network = "172.16" := by
  rfl

/-- C1 (amended with the bound `n ≤ 65000` forced by pool exhaustion):
for every `1 ≤ n ≤ 65000` and every sequence of `n` allocate calls with
pairwise-distinct tenant ids and no intervening release, performed on a
freshly constructed `SubnetAllocator` with base network `"172.16"`, the
`i`-th call (1-indexed) succeeds and returns gateway `"172.16.i.1"` and
vm_ip `"172.16.i.2"`, and afterwards `next_index = n + 1`. -/
theorem C1_allocator_monotonic (n : Nat) (ids : List String)
    (hlen : ids.length = n) (hnodup : ids.Nodup)
    (hn1 : 1 ≤ n) (hn : n ≤ 65000) :
    (∀ i, i < n →
      (allocSeq (SubnetAllocator.new "172.16.0.0/16") ids).1.get? i =
        some (.ok ("172.16." ++ toString (i + 1) ++ ".1",
                   "172.16." ++ toString (i + 1) ++ ".2"))) ∧
    (allocSeq (SubnetAllocator.new "172.16.0.0/16") ids).2.next_index =
      n + 1 := by
  have hfresh : ∀ t ∈ ids,
      alContains (SubnetAllocator.new "172.16.0.0/16").allocated t = false :=
    fun t _ => rfl
  have hroom :
      (SubnetAllocator.new "172.16.0.0/16").next_index + ids.length ≤ 65001 := by
    show 1 + ids.length ≤ 65001
    omega
  obtain ⟨hres, hnx, -, -⟩ :=
    allocSeq_ok ids (SubnetAllocator.new "172.16.0.0/16") hnodup hfresh hroom
  constructor
  · intro i hi
    rw [hres, List.get?_map, List.get?_range (by omega : i < ids.length)]
    simp only [Option.map_some', base_network_new]
    show some (Except.ok ("172.16" ++ "." ++ toString (1 + i) ++ ".1",
      "172.16" ++ "." ++ toString (1 + i) ++ ".2")) = _
    rw [Nat.add_comm 1 i]
    rfl
  · rw [hnx]
    show 1 + ids.length = n + 1
    omega

/-- Witness for C1 at the concrete input `["a", "b", "c"]`. -/
theorem C1_allocator_monotonic_witness :
    (allocSeq (SubnetAllocator.new "172.16.0.0/16") ["a", "b", "c"]).2.next_index =
      3 + 1 :=
  (C1_allocator_monotonic 3 ["a", "b", "c"] rfl (by decide) (by decide)
    (by decide)).2

/-- 65001 pairwise-distinct tenant ids (distinguished by their lengths). -/
def cexIds : List String :=
  (List.range 65001).map (fun n => String.mk (List.replicate n 'a'))

theorem cexIds_length : cexIds.length = 65001 := by
  simp [cexIds]

theorem cexIds_injective :
    Function.Injective (fun n => String.mk (List.replicate n 'a')) := by
  intro a b h
  have := congrArg (fun s => s.data.length) h
  simpa using this

theorem cexIds_nodup : cexIds.Nodup :=
  (List.nodup_range 65001).map cexIds_injective

theorem allocate_exhausted {s : SubnetAllocator} {t : String}
    (hc : alContains s.allocated t = false) (hn : s.next_index > 65000) :
    s.allocate t = .error .poolExhausted := by
  simp [SubnetAllocator.allocate, hc, hn]

theorem allocSeq_single_error {s : SubnetAllocator} {t : String}
    {e : AllocErr} (h : s.allocate t = .error e) :
    (allocSeq s [t]).1 = [.error e] := by
  simp [allocSeq, h]

/-- C1 counterexample: the claim quantifies over every `n ≥ 1`, but with
`n = 65001` pairwise-distinct fresh tenant ids the 65001-st call (1-indexed)
fails with pool exhaustion instead of succeeding (the source bails once
`next_index > 65000`). -/
theorem C1_counterexample :
    cexIds.length = 65001 ∧ cexIds.Nodup ∧
    (allocSeq (SubnetAllocator.new "172.16.0.0/16") cexIds).1.get? 65000 =
      some (.error .poolExhausted) := by
  refine ⟨cexIds_length, cexIds_nodup, ?_⟩
  have hsplit : cexIds =
      (List.range 65000).map (fun n => String.mk (List.replicate n 'a')) ++
      [String.mk (List.replicate 65000 'a')] := by
    have h65 : (65001 : Nat) = 65000 + 1 := by norm_num
    rw [cexIds, h65, List.range_succ, List.map_append, List.map_singleton]
  set first : List String :=
    (List.range 65000).map (fun n => String.mk (List.replicate n 'a')) with hfirst
  have hnodup1 : first.Nodup := (List.nodup_range 65000).map cexIds_injective
  have hfresh1 : ∀ t ∈ first,
      alContains (SubnetAllocator.new "172.16.0.0/16").allocated t = false :=
    fun t _ => rfl
  have hlen1 : first.length = 65000 := by simp [hfirst]
  have hroom1 :
      (SubnetAllocator.new "172.16.0.0/16").next_index + first.length ≤ 65001 := by
    rw [hlen1]; show 1 + 65000 ≤ 65001; omega
  obtain ⟨hres1, hnx1, -, hcontains1⟩ :=
    allocSeq_ok first (SubnetAllocator.new "172.16.0.0/16") hnodup1 hfresh1 hroom1
  have hlenres : (allocSeq (SubnetAllocator.new "172.16.0.0/16") first).1.length =
      65000 := by
    rw [hres1]; simp [hlen1]
  rw [hsplit, allocSeq_append, List.get?_append_right (by omega)]
  rw [hlenres]
  have hlast_fresh :
      alContains (allocSeq (SubnetAllocator.new "172.16.0.0/16") first).2.allocated
        (String.mk (List.replicate 65000 'a')) = false := by
    rw [hcontains1]
    have hnotmem : String.mk (List.replicate 65000 'a') ∉ first := by
      intro hmem
      rcases List.mem_map.mp hmem with ⟨m, hm, hfm⟩
      have hmeq : m = 65000 := cexIds_injective hfm
      have hmlt : m < 65000 := List.mem_range.mp hm
      omega
    have h1 : alContains (SubnetAllocator.new "172.16.0.0/16").allocated
        (String.mk (List.replicate 65000 'a')) = false := rfl
    rw [h1, Bool.false_or, decide_eq_false hnotmem]
  have hgt :
      (allocSeq (SubnetAllocator.new "172.16.0.0/16") first).2.next_index >
        65000 := by
    rw [hnx1, hlen1]
    show 1 + 65000 > 65000
    omega
  rw [Nat.sub_self, allocSeq_single_error (allocate_exhausted hlast_fresh hgt)]
  rfl

/-! ## C10: allocator invariant under allocate/release sequences -/

theorem alContains_insert_ne {α : Type} {m : List (String × α)}
    {k t : String} (v : α) (h : k ≠ t) :
    alContains (alInsert m k v) t = alContains m t := by
  by_cases hc : alContains m k
  · rw [show alInsert m k v =
        m.map (fun p => if p.1 == k then (k, v) else p) from by
      simp [alInsert, hc]]
    simp only [alContains, List.any_map]
    congr 1
    funext p
    by_cases hp : p.1 == k
    · have hpk : p.1 = k := by simpa using hp
      simp [Function.comp, hp, hpk]
    · simp [Function.comp, hp]
  · rw [alInsert_of_not_contains _ (by simpa using hc),
      alContains_append_single]
    simp [beq_eq_false_iff_ne.mpr h]

theorem not_mem_keys_of_not_contains {α : Type} {m : List (String × α)}
    {k : String} (h : alContains m k = false) :
    k ∉ m.map Prod.fst := by
  intro hmem
  rcases List.mem_map.mp hmem with ⟨p, hp, hpk⟩
  have := List.any_eq_false.mp h p hp
  exact this (by simp [hpk])

/-- Inversion of a successful `allocate`. -/
theorem allocate_ok_inv {s : SubnetAllocator} {t gw vm : String}
    {s' : SubnetAllocator} (h : s.allocate t = .ok (gw, vm, s')) :
    alContains s.allocated t = false ∧ s.next_index ≤ 65000 ∧
    gw = s.base_network ++ "." ++ toString s.next_index ++ ".1" ∧
    vm = s.base_network ++ "." ++ toString s.next_index ++ ".2" ∧
    s' = { s with
           next_index := s.next_index + 1
           allocated := s.allocated ++ [(t, s.next_index)] } := by
  by_cases hc : alContains s.allocated t
  · simp [SubnetAllocator.allocate, hc] at h
  · by_cases hn : s.next_index > 65000
    · simp [SubnetAllocator.allocate, hc, hn] at h
    · have hc' : alContains s.allocated t = false := by simpa using hc
      have h' := h
      simp only [SubnetAllocator.allocate, hc', Bool.false_eq_true, if_false,
        hn, Except.ok.injEq, Prod.mk.injEq] at h'
      obtain ⟨h1, h2, h3⟩ := h'
      exact ⟨hc', by omega, h1.symm, h2.symm,
        by rw [← h3, alInsert_of_not_contains _ hc']⟩

/-- The allocator operations available outside recovery (`network.rs`). -/
inductive AllocOp : Type
  | alloc (tenantId : String)
  | release (tenantId : String)
deriving DecidableEq, Repr

/-- One manager-side step: a successful `allocate` adopts the new state, a
failed one leaves the state as it was (`allocate` bails before mutating
`self`); `release` always applies. -/
def allocStep (s : SubnetAllocator) : AllocOp → SubnetAllocator
  | .alloc t =>
    match s.allocate t with
    | .ok (_, _, s') => s'
    | .error _ => s
  | .release t => s.release t

def runOps (s : SubnetAllocator) (ops : List AllocOp) : SubnetAllocator :=
  ops.foldl allocStep s

/-- The C10 invariant: the cursor is at least 1, every recorded index is in
`[1, next_index)`, the map's keys are unique (HashMap representation), and
distinct tenant ids hold distinct indices. -/
def AllocInv (s : SubnetAllocator) : Prop :=
  1 ≤ s.next_index ∧
  (∀ p ∈ s.allocated, 1 ≤ p.2 ∧ p.2 < s.next_index) ∧
  (s.allocated.map Prod.fst).Nodup ∧
  (∀ p ∈ s.allocated, ∀ q ∈ s.allocated, p.1 ≠ q.1 → p.2 ≠ q.2)

instance (s : SubnetAllocator) : Decidable (AllocInv s) := by
  unfold AllocInv
  infer_instance

theorem allocInv_new (cidr : String) : AllocInv (SubnetAllocator.new cidr) := by
  refine ⟨Nat.le_refl 1, ?_, ?_, ?_⟩ <;> simp [SubnetAllocator.new]

theorem allocInv_step {s : SubnetAllocator} (h : AllocInv s) (op : AllocOp) :
    AllocInv (allocStep s op) := by
  obtain ⟨hpos, hbound, hkeys, hinj⟩ := h
  cases op with
  | release t =>
    refine ⟨hpos, ?_, ?_, ?_⟩
    · intro p hp
      exact hbound p (List.mem_filter.mp hp).1
    · exact ((List.filter_sublist _).map Prod.fst).nodup hkeys
    · intro p hp q hq hne
      exact hinj p (List.mem_filter.mp hp).1 q (List.mem_filter.mp hq).1 hne
  | alloc t =>
    rcases halloc : s.allocate t with e | ⟨gw, vm, s'⟩
    · simpa [allocStep, halloc] using ⟨hpos, hbound, hkeys, hinj⟩
    · obtain ⟨hc, hle, -, -, hs'⟩ := allocate_ok_inv halloc
      simp only [allocStep, halloc]
      subst hs'
      refine ⟨?_, ?_, ?_, ?_⟩
      · show 1 ≤ s.next_index + 1
        omega
      · intro p hp
        show 1 ≤ p.2 ∧ p.2 < s.next_index + 1
        rcases List.mem_append.mp hp with hp | hp
        · have := hbound p hp
          omega
        · have hp' : p = (t, s.next_index) := by simpa using hp
          subst hp'
          show 1 ≤ s.next_index ∧ s.next_index < s.next_index + 1
          omega
      · show ((s.allocated ++ [(t, s.next_index)]).map Prod.fst).Nodup
        rw [List.map_append]
        refine List.Nodup.append hkeys (by simp) ?_
        intro a ha hb
        have : a = t := by simpa using hb
        subst this
        exact not_mem_keys_of_not_contains hc ha
      · intro p hp q hq hne
        rcases List.mem_append.mp hp with hp | hp <;>
          rcases List.mem_append.mp hq with hq | hq
        · exact hinj p hp q hq hne
        · have hq' : q = (t, s.next_index) := by simpa using hq
          subst hq'
          have := hbound p hp
          show p.2 ≠ s.next_index
          omega
        · have hp' : p = (t, s.next_index) := by simpa using hp
          subst hp'
          have := hbound q hq
          show s.next_index ≠ q.2
          omega
        · have hp' : p = (t, s.next_index) := by simpa using hp
          have hq' : q = (t, s.next_index) := by simpa using hq
          subst hp'; subst hq'
          exact absurd rfl hne

theorem allocInv_runOps {s : SubnetAllocator} (h : AllocInv s)
    (ops : List AllocOp) : AllocInv (runOps s ops) := by
  induction ops generalizing s with
  | nil => exact h
  | cons op rest ih => exact ih (allocInv_step h op)

/-- C10: starting from a freshly constructed `SubnetAllocator`, after any
sequence of allocate and release operations every index recorded in the
allocated map is `≥ 1` and `< next_index`, and distinct tenant ids map to
distinct indices; and both failing allocate branches (duplicate id, pool
exhausted) leave `next_index` and the allocated map unchanged. -/
theorem C10_allocator_invariant :
    (∀ ops : List AllocOp,
      AllocInv (runOps (SubnetAllocator.new "172.16.0.0/16") ops)) ∧
    (∀ (s : SubnetAllocator) (t : String),
      alContains s.allocated t = true → runOps s [.alloc t] = s) ∧
    (∀ (s : SubnetAllocator) (t : String),
      alContains s.allocated t = false → s.next_index > 65000 →
      runOps s [.alloc t] = s) := by
  refine ⟨fun ops => allocInv_runOps (allocInv_new _) ops, ?_, ?_⟩
  · intro s t hc
    simp [runOps, allocStep, SubnetAllocator.allocate, hc]
  · intro s t hc hn
    simp [runOps, allocStep, SubnetAllocator.allocate, hc, hn]

/-- Witness for C10: a concrete operation sequence, and concrete states for
each failing-allocate branch. -/
theorem C10_allocator_invariant_witness :
    AllocInv (runOps (SubnetAllocator.new "172.16.0.0/16")
      [.alloc "a", .alloc "b", .release "a", .alloc "c"]) ∧
    runOps { base_network := "172.16", next_index := 2,
             allocated := [("a", 1)] } [.alloc "a"] =
      { base_network := "172.16", next_index := 2, allocated := [("a", 1)] } ∧
    runOps { base_network := "172.16", next_index := 65001,
             allocated := [("a", 1)] } [.alloc "b"] =
      { base_network := "172.16", next_index := 65001,
        allocated := [("a", 1)] } :=
  ⟨C10_allocator_invariant.1 [.alloc "a", .alloc "b", .release "a", .alloc "c"],
   C10_allocator_invariant.2.1 _ "a" (by decide),
   C10_allocator_invariant.2.2 _ "b" (by decide) (by decide)⟩

/-! ## C6: allocator recovery round-trip -/

/-- Recovery: re-record each persisted `(tenant_id, index)` pair via
`restore_allocation` (`tenant.rs` recover loop, lines 147-150). -/
def restoreAll (s : SubnetAllocator) (rs : List (String × Nat)) :
    SubnetAllocator :=
  rs.foldl (fun a p => a.restore_allocation p.1 p.2) s

/-- Largest restored index (0 when nothing was restored). -/
def maxRestoredIndex (rs : List (String × Nat)) : Nat :=
  rs.foldr (fun p m => max p.2 m) 0

/-- A successful `allocate` fully characterised. -/
theorem allocate_success {s : SubnetAllocator} {t : String}
    (hc : alContains s.allocated t = false) (hn : s.next_index ≤ 65000) :
    s.allocate t =
      .ok (s.base_network ++ "." ++ toString s.next_index ++ ".1",
           s.base_network ++ "." ++ toString s.next_index ++ ".2",
           { s with
             next_index := s.next_index + 1
             allocated := alInsert s.allocated t s.next_index }) := by
  have hgt : ¬ s.next_index > 65000 := by omega
  simp [SubnetAllocator.allocate, hc, hgt]

theorem restoreAll_next_index (s : SubnetAllocator)
    (rs : List (String × Nat)) :
    (restoreAll s rs).next_index = s.next_index := by
  induction rs generalizing s with
  | nil => rfl
  | cons p rest ih => exact ih _

theorem restoreAll_base (s : SubnetAllocator) (rs : List (String × Nat)) :
    (restoreAll s rs).base_network = s.base_network := by
  induction rs generalizing s with
  | nil => rfl
  | cons p rest ih => exact ih _

theorem restoreAll_contains_false {rs : List (String × Nat)} {t : String} :
    ∀ {s : SubnetAllocator}, alContains s.allocated t = false →
    t ∉ rs.map Prod.fst →
    alContains (restoreAll s rs).allocated t = false := by
  induction rs with
  | nil => intro s h _; exact h
  | cons p rest ih =>
    intro s h hmem
    have hk : p.1 ≠ t := fun he => hmem (by simp [he])
    have h' : alContains (s.restore_allocation p.1 p.2).allocated t = false := by
      rw [show (s.restore_allocation p.1 p.2).allocated =
        alInsert s.allocated p.1 p.2 from rfl]
      rw [alContains_insert_ne _ hk]
      exact h
    exact ih h' (fun hm => hmem (by simp [hm]))

/-- C6 (amended): for every non-empty set of restored allocations and every
persisted cursor `c` that respects the persistence discipline of the create
path (`c ≥ max(restored indices) + 1`, which holds because `next_index` is
persisted immediately after each allocate) and is within the pool
(`c ≤ 65000`), calling `restore_allocation` for each pair plus
`set_next_index c` yields an allocator whose next `allocate` for a fresh
tenant id succeeds with index exactly `c ≥ max(restored indices) + 1`. -/
theorem C6_allocator_recovery (rs : List (String × Nat)) (c : Nat)
    (tid : String) (hne : rs ≠ []) (hfresh : tid ∉ rs.map Prod.fst)
    (hc1 : maxRestoredIndex rs + 1 ≤ c) (hc2 : c ≤ 65000) :
    (∃ s' : SubnetAllocator,
      ((restoreAll (SubnetAllocator.new "172.16.0.0/16") rs).set_next_index
          c).allocate tid =
        .ok ("172.16." ++ toString c ++ ".1",
             "172.16." ++ toString c ++ ".2", s') ∧
      s'.next_index = c + 1) ∧
    maxRestoredIndex rs + 1 ≤ c := by
  have hcset : alContains
      ((restoreAll (SubnetAllocator.new "172.16.0.0/16") rs).set_next_index
        c).allocated tid = false :=
    restoreAll_contains_false rfl hfresh
  have hnset : ((restoreAll (SubnetAllocator.new "172.16.0.0/16")
      rs).set_next_index c).next_index = c := rfl
  have hbset : ((restoreAll (SubnetAllocator.new "172.16.0.0/16")
      rs).set_next_index c).base_network = "172.16" := by
    show (restoreAll (SubnetAllocator.new "172.16.0.0/16")
      rs).base_network = "172.16"
    rw [restoreAll_base]; exact base_network_new
  have halloc := allocate_success hcset (by rw [hnset]; omega)
  rw [hnset, hbset] at halloc
  exact ⟨⟨_, halloc, rfl⟩, hc1⟩

/-- Witness for C6 (amended) at `rs = [("t1", 2)]`, `c = 3`, fresh id
`"t2"`. -/
theorem C6_allocator_recovery_witness :
    (∃ s' : SubnetAllocator,
      ((restoreAll (SubnetAllocator.new "172.16.0.0/16")
          [("t1", 2)]).set_next_index 3).allocate "t2" =
        .ok ("172.16." ++ toString 3 ++ ".1",
             "172.16." ++ toString 3 ++ ".2", s') ∧
      s'.next_index = 3 + 1) ∧
    maxRestoredIndex [("t1", 2)] + 1 ≤ 3 :=
  C6_allocator_recovery [("t1", 2)] 3 "t2" (by decide) (by decide)
    (by decide) (by decide)

/-- C6 counterexample: the claim holds for *every* persisted cursor value,
but with restored allocation `("t1", 5)` and persisted cursor `1` the next
`allocate` returns index `1`, which is less than `max(restored) + 1 = 6`:
`set_next_index` honours the persisted value unconditionally
(`network.rs` lines 60-62) and `allocate` hands out exactly `next_index`. -/
theorem C6_counterexample :
    ((restoreAll (SubnetAllocator.new "172.16.0.0/16")
        [("t1", 5)]).set_next_index 1).allocate "t2" =
      .ok ("172.16.1.1", "172.16.1.2",
        { base_network := "172.16", next_index := 2,
          allocated := [("t1", 5), ("t2", 1)] }) ∧
    maxRestoredIndex [("t1", 5)] + 1 = 6 ∧ ¬ (1 ≥ 6) := by
  refine ⟨?_, by decide, by decide⟩
  rfl

/-! ## Tenant data model (`tenant.rs`) -/

/-- `Tier` (`tenant.rs` lines 31-37). -/
inductive Tier : Type
  | free
  | pro
  | team
  | enterprise
deriving DecidableEq, Repr

/-- `TenantStatus` (`tenant.rs` lines 68-75). -/
inductive TenantStatus : Type
  | creating
  | running
  | stopped
  | paused
  | failed
deriving DecidableEq, Repr

/-- `Tenant` (`tenant.rs` lines 12-29). `created_at` is a
`chrono::DateTime<Utc>` in the source, modelled as an abstract instant
(`Nat`). -/
structure Tenant : Type where
  id : String
  tier : Tier
  status : TenantStatus
  vm_ip : String
  gateway_ip : String
  tap_device : String
  socket_path : String
  data_dir : String
  vm_pid : Option Nat
  channels : List String
  created_at : Nat
  skip_tool_approval : Bool
deriving DecidableEq, Repr

/-! ## Integer parsing (Rust `str::parse::<uN>`)

Rust's unsigned `FromStr` accepts an optional leading `+`, then one or more
ASCII digits, and fails on overflow; the final-value bound check below is
equivalent because the accumulated value only grows. -/

def parseDigitsAcc (acc : Nat) : List Char → Option Nat
  | [] => some acc
  | c :: cs =>
    if c.isDigit then parseDigitsAcc (acc * 10 + (c.toNat - 48)) cs else none

/-- Strip the optional leading `+` sign accepted by Rust's unsigned
`FromStr`. -/
def stripPlus : List Char → List Char
  | '+' :: rest => rest
  | l => l

/-- Model of Rust `s.parse::<uN>()` with maximum value `bound`. -/
def rustParseNat (bound : Nat) (s : List Char) : Option Nat :=
  match stripPlus s with
  | [] => none
  | ds =>
    match parseDigitsAcc 0 ds with
    | some v => if v ≤ bound then some v else none
    | none => none

def parseU8 (s : List Char) : Option Nat := rustParseNat 255 s

def parseU16 (s : List Char) : Option Nat := rustParseNat 65535 s

/-- `parse_subnet_index` (`tenant.rs` lines 580-587): split the VM IP on
dots; with exactly four parts, parse the third as `u16`. -/
def parse_subnet_index (vm_ip : String) : Option Nat :=
  let parts := splitOnChar '.' vm_ip.data
  if parts.length = 4 then
    match parts.get? 2 with
    | some p => parseU16 p
    | none => none
  else
    none

/-! ## Recovery (`TenantManager::recover`, `tenant.rs` lines 129-208)

Process liveness (`process_alive`, a `/proc/<pid>` probe) is an OS oracle,
passed in as `alive : Nat → Bool`. Ignored `Result`s of
`db.update_tenant_status` are modelled by collecting the attempted updates
in a journal. -/

/-- The per-tenant reconciliation of the `recover` loop body
(`tenant.rs` lines 152-200): returns the tenant as placed in the in-memory
table together with the status update persisted to the database, if any. -/
def reconcileTenant (alive : Nat → Bool) (t : Tenant) :
    Tenant × Option (TenantStatus × Option Nat) :=
  match t.status with
  | .running | .paused =>
    match t.vm_pid with
    | some pid =>
      if alive pid then
        (t, none)
      else
        ({ t with status := .stopped, vm_pid := none },
         some (.stopped, none))
    | none =>
      ({ t with status := .stopped }, some (.stopped, none))
  | .creating =>
    ({ t with status := .failed }, some (.failed, none))
  | _ => (t, none)

structure RecoverResult : Type where
  table : List (String × Tenant)
  dbUpdates : List (String × TenantStatus × Option Nat)
  alloc : SubnetAllocator
deriving DecidableEq, Repr

/-- The `recover` loop over the persisted tenants, threading the in-memory
table, the journal of persisted status updates, and the allocator. -/
def recoverLoop (alive : Nat → Bool) :
    List Tenant → List (String × Tenant) →
    List (String × TenantStatus × Option Nat) → SubnetAllocator →
    RecoverResult
  | [], tab, upds, s => ⟨tab, upds, s⟩
  | t :: ts, tab, upds, s =>
    let s1 := match parse_subnet_index t.vm_ip with
      | some i => s.restore_allocation t.id i
      | none => s
    let r := reconcileTenant alive t
    let upds1 := match r.2 with
      | some u => upds ++ [(t.id, u)]
      | none => upds
    recoverLoop alive ts (alInsert tab r.1.id r.1) upds1 s1

/-- `TenantManager::recover`: load the persisted tenants (passed in, since
SQLite is external), apply the persisted cursor, then reconcile each
tenant. -/
def recover (alive : Nat → Bool) (tenants : List Tenant)
    (persistedIdx : Nat) (s : SubnetAllocator) : RecoverResult :=
  recoverLoop alive tenants [] [] (s.set_next_index persistedIdx)

theorem reconcileTenant_id (alive : Nat → Bool) (t : Tenant) :
    (reconcileTenant alive t).1.id = t.id := by
  unfold reconcileTenant
  cases t.status <;> cases t.vm_pid <;> dsimp <;>
    first
    | rfl
    | (split <;> rfl)

theorem alGet_map_overwrite {α : Type} (m : List (String × α)) (k : String)
    (v : α) (h : alContains m k = true) :
    alGet (m.map (fun p => if p.1 == k then (k, v) else p)) k = some v := by
  induction m with
  | nil => simp [alContains] at h
  | cons p ps ih =>
    by_cases hp : (p.1 == k) = true
    · have hfp : (if (p.1 == k) = true then ((k, v) : String × α) else p) =
          (k, v) := if_pos hp
      simp only [alGet, List.map_cons, hfp, List.find?]
      rw [show (((k, v) : String × α).1 == k) = true from by simp]
      rfl
    · have h' : alContains ps k = true := by
        rcases List.any_eq_true.mp h with ⟨q, hq, hqk⟩
        rcases List.mem_cons.mp hq with rfl | hq'
        · exact absurd hqk hp
        · exact List.any_eq_true.mpr ⟨q, hq', hqk⟩
      have hpf : (p.1 == k) = false := by simpa using hp
      have hfp : (if (p.1 == k) = true then ((k, v) : String × α) else p) =
          p := if_neg hp
      have hih := ih h'
      simp only [alGet, List.map_cons, hfp] at hih ⊢
      simp only [List.find?, hpf]
      exact hih

theorem alGet_map_overwrite_ne {α : Type} (m : List (String × α))
    {k k' : String} (v : α) (h : k ≠ k') :
    alGet (m.map (fun p => if p.1 == k then (k, v) else p)) k' =
      alGet m k' := by
  induction m with
  | nil => rfl
  | cons p ps ih =>
    by_cases hp : (p.1 == k) = true
    · have hpk : p.1 = k := by simpa using hp
      have hfp : (if (p.1 == k) = true then ((k, v) : String × α) else p) =
          (k, v) := if_pos hp
      have h1 : (((k, v) : String × α).1 == k') = false := by
        simpa using beq_eq_false_iff_ne.mpr h
      have h2 : (p.1 == k') = false := by
        rw [hpk]; exact beq_eq_false_iff_ne.mpr h
      have hih := ih
      simp only [alGet, List.map_cons, hfp] at hih ⊢
      simp only [List.find?, h1, h2]
      exact hih
    · have hfp : (if (p.1 == k) = true then ((k, v) : String × α) else p) =
          p := if_neg hp
      by_cases hp' : (p.1 == k') = true
      · simp only [alGet, List.map_cons, hfp]
        simp only [List.find?, hp']
      · have hpf' : (p.1 == k') = false := by simpa using hp'
        have hih := ih
        simp only [alGet, List.map_cons, hfp] at hih ⊢
        simp only [List.find?, hpf']
        exact hih

theorem alGet_insert_self {α : Type} (m : List (String × α)) (k : String)
    (v : α) : alGet (alInsert m k v) k = some v := by
  by_cases hc : alContains m k
  · rw [show alInsert m k v =
        m.map (fun p => if p.1 == k then (k, v) else p) from by
      simp [alInsert, hc]]
    exact alGet_map_overwrite m k v hc
  · have hc' : alContains m k = false := by simpa using hc
    rw [alInsert_of_not_contains _ hc']
    exact alGet_append_single_self v hc'

theorem alGet_insert_ne {α : Type} (m : List (String × α)) {k k' : String}
    (v : α) (h : k ≠ k') :
    alGet (alInsert m k v) k' = alGet m k' := by
  by_cases hc : alContains m k
  · rw [show alInsert m k v =
        m.map (fun p => if p.1 == k then (k, v) else p) from by
      simp [alInsert, hc]]
    exact alGet_map_overwrite_ne m v h
  · rw [alInsert_of_not_contains _ (by simpa using hc)]
    exact alGet_append_single_ne m v h

/-- Frame lemma: a key not named by any remaining tenant keeps its table
entry through the rest of the recover loop. -/
theorem recoverLoop_table_frame (alive : Nat → Bool) (ts : List Tenant)
    (k : String) (hk : k ∉ ts.map Tenant.id) :
    ∀ (tab : List (String × Tenant))
      (upds : List (String × TenantStatus × Option Nat))
      (s : SubnetAllocator),
      alGet (recoverLoop alive ts tab upds s).table k = alGet tab k := by
  induction ts with
  | nil => intro tab upds s; rfl
  | cons t ts ih =>
    intro tab upds s
    have hne : t.id ≠ k := fun he => hk (by simp [← he])
    have hk' : k ∉ ts.map Tenant.id := fun hm => hk (by simp [hm])
    simp only [recoverLoop]
    rw [ih hk']
    rw [show (reconcileTenant alive t).1.id = t.id from reconcileTenant_id _ _]
    exact alGet_insert_ne _ _ hne

/-- Each persisted tenant ends up in the table under its id, reconciled. -/
theorem recoverLoop_table_get (alive : Nat → Bool) (ts : List Tenant)
    (t : Tenant) (ht : t ∈ ts) (hids : (ts.map Tenant.id).Nodup) :
    ∀ (tab : List (String × Tenant))
      (upds : List (String × TenantStatus × Option Nat))
      (s : SubnetAllocator),
      alGet (recoverLoop alive ts tab upds s).table t.id =
        some (reconcileTenant alive t).1 := by
  induction ts with
  | nil => cases ht
  | cons u ts ih =>
    intro tab upds s
    rcases List.mem_cons.mp ht with rfl | hmem
    · have hids' := hids
      rw [List.map_cons] at hids'
      have hk : t.id ∉ ts.map Tenant.id := (List.nodup_cons.mp hids').1
      simp only [recoverLoop]
      rw [recoverLoop_table_frame alive ts t.id hk]
      rw [show (reconcileTenant alive t).1.id = t.id from
        reconcileTenant_id _ _]
      exact alGet_insert_self _ _ _
    · have hids' := hids
      rw [List.map_cons] at hids'
      exact ih hmem (List.nodup_cons.mp hids').2 _ _ _

/-- The database updates attempted by the recover loop over `ts`. -/
def updatesOf (alive : Nat → Bool) :
    List Tenant → List (String × TenantStatus × Option Nat)
  | [] => []
  | t :: ts =>
    (match (reconcileTenant alive t).2 with
     | some u => [(t.id, u)]
     | none => []) ++ updatesOf alive ts

theorem recoverLoop_updates (alive : Nat → Bool) (ts : List Tenant) :
    ∀ (tab : List (String × Tenant))
      (upds : List (String × TenantStatus × Option Nat))
      (s : SubnetAllocator),
      (recoverLoop alive ts tab upds s).dbUpdates =
        upds ++ updatesOf alive ts := by
  induction ts with
  | nil => intro tab upds s; simp [recoverLoop, updatesOf]
  | cons t ts ih =>
    intro tab upds s
    simp only [recoverLoop, updatesOf]
    rcases h : (reconcileTenant alive t).2 with _ | u <;>
      simp [h, ih, List.append_assoc]

theorem mem_updatesOf (alive : Nat → Bool) (ts : List Tenant) (t : Tenant)
    (ht : t ∈ ts) {u : TenantStatus × Option Nat}
    (hu : (reconcileTenant alive t).2 = some u) :
    (t.id, u) ∈ updatesOf alive ts := by
  induction ts with
  | nil => cases ht
  | cons v ts ih =>
    rcases List.mem_cons.mp ht with rfl | hmem
    · simp [updatesOf, hu]
    · simp only [updatesOf, List.mem_append]
      exact Or.inr (ih hmem)

/-- C2: for every persisted tenant set (distinct ids, as guaranteed by the
primary key), `recover` maps each tenant's status as claimed and persists
each change: Running/Paused with no PID, or with a dead PID, becomes
Stopped with PID unset (persisted as `(Stopped, None)`); Creating becomes
Failed (persisted); Stopped and Failed are inserted unchanged. -/
theorem C2_recover_reconciliation (alive : Nat → Bool)
    (tenants : List Tenant) (pidx : Nat) (s0 : SubnetAllocator)
    (hids : (tenants.map Tenant.id).Nodup)
    (t : Tenant) (ht : t ∈ tenants) :
    (((t.status = .running ∨ t.status = .paused) ∧ t.vm_pid = none) →
      alGet (recover alive tenants pidx s0).table t.id =
        some { t with status := .stopped } ∧
      (t.id, TenantStatus.stopped, (none : Option Nat)) ∈
        (recover alive tenants pidx s0).dbUpdates) ∧
    (∀ pid : Nat,
      ((t.status = .running ∨ t.status = .paused) ∧ t.vm_pid = some pid ∧
        alive pid = false) →
      alGet (recover alive tenants pidx s0).table t.id =
        some { t with status := .stopped, vm_pid := none } ∧
      (t.id, TenantStatus.stopped, (none : Option Nat)) ∈
        (recover alive tenants pidx s0).dbUpdates) ∧
    (t.status = .creating →
      alGet (recover alive tenants pidx s0).table t.id =
        some { t with status := .failed } ∧
      (t.id, TenantStatus.failed, (none : Option Nat)) ∈
        (recover alive tenants pidx s0).dbUpdates) ∧
    ((t.status = .stopped ∨ t.status = .failed) →
      alGet (recover alive tenants pidx s0).table t.id = some t) := by
  have htab := recoverLoop_table_get alive tenants t ht hids [] []
    (s0.set_next_index pidx)
  have hupd := recoverLoop_updates alive tenants [] []
    (s0.set_next_index pidx)
  refine ⟨?_, ?_, ?_, ?_⟩
  · rintro ⟨hst, hpid⟩
    have hrec : reconcileTenant alive t =
        ({ t with status := .stopped }, some (.stopped, none)) := by
      rcases hst with hst | hst <;>
        simp [reconcileTenant, hst, hpid]
    constructor
    · rw [show (recover alive tenants pidx s0).table =
        (recoverLoop alive tenants [] [] (s0.set_next_index pidx)).table
        from rfl, htab, hrec]
    · rw [show (recover alive tenants pidx s0).dbUpdates =
        (recoverLoop alive tenants [] [] (s0.set_next_index pidx)).dbUpdates
        from rfl, hupd]
      exact List.mem_append.mpr (Or.inr
        (mem_updatesOf alive tenants t ht (by rw [hrec])))
  · rintro pid ⟨hst, hpid, halive⟩
    have hrec : reconcileTenant alive t =
        ({ t with status := .stopped, vm_pid := none },
          some (.stopped, none)) := by
      rcases hst with hst | hst <;>
        simp [reconcileTenant, hst, hpid, halive]
    constructor
    · rw [show (recover alive tenants pidx s0).table =
        (recoverLoop alive tenants [] [] (s0.set_next_index pidx)).table
        from rfl, htab, hrec]
    · rw [show (recover alive tenants pidx s0).dbUpdates =
        (recoverLoop alive tenants [] [] (s0.set_next_index pidx)).dbUpdates
        from rfl, hupd]
      exact List.mem_append.mpr (Or.inr
        (mem_updatesOf alive tenants t ht (by rw [hrec])))
  · intro hst
    have hrec : reconcileTenant alive t =
        ({ t with status := .failed }, some (.failed, none)) := by
      simp [reconcileTenant, hst]
    constructor
    · rw [show (recover alive tenants pidx s0).table =
        (recoverLoop alive tenants [] [] (s0.set_next_index pidx)).table
        from rfl, htab, hrec]
    · rw [show (recover alive tenants pidx s0).dbUpdates =
        (recoverLoop alive tenants [] [] (s0.set_next_index pidx)).dbUpdates
        from rfl, hupd]
      exact List.mem_append.mpr (Or.inr
        (mem_updatesOf alive tenants t ht (by rw [hrec])))
  · intro hst
    have hrec : reconcileTenant alive t = (t, none) := by
      rcases hst with hst | hst <;> simp [reconcileTenant, hst]
    rw [show (recover alive tenants pidx s0).table =
      (recoverLoop alive tenants [] [] (s0.set_next_index pidx)).table
      from rfl, htab, hrec]

/-- A concrete persisted tenant for the C2 witness: stored `Running` with a
recorded PID whose process is no longer alive. -/
def exDeadTenant : Tenant :=
  { id := "t2"
    tier := .pro
    status := .running
    vm_ip := "172.16.2.2"
    gateway_ip := "172.16.2.1"
    tap_device := "fc-t2"
    socket_path := "/tmp/fc-t2.sock"
    data_dir := "/var/lib/microclaw/t2"
    vm_pid := some 4242
    channels := ["web"]
    created_at := 1700000000
    skip_tool_approval := false }

/-- Witness for C2: recovering a lone Running tenant whose PID is dead (the
liveness oracle answers false) yields it Stopped with PID unset, and the
change is persisted. -/
theorem C2_recover_reconciliation_witness :
    alGet (recover (fun _ => false) [exDeadTenant] 3
        (SubnetAllocator.new "172.16.0.0/16")).table "t2" =
      some { exDeadTenant with status := .stopped, vm_pid := none } ∧
    ("t2", TenantStatus.stopped, (none : Option Nat)) ∈
      (recover (fun _ => false) [exDeadTenant] 3
        (SubnetAllocator.new "172.16.0.0/16")).dbUpdates :=
  (C2_recover_reconciliation (fun _ => false) [exDeadTenant] 3
      (SubnetAllocator.new "172.16.0.0/16") (by simp) exDeadTenant
      (by simp)).2.1 4242 ⟨Or.inl rfl, rfl, rfl⟩

/-! ## Lifecycle guards (`tenant.rs` lines 418-448 and 479-487)

The manager's in-memory table plus the journal of database status updates.
The hypervisor PATCH (`fc.pause_vm` / `fc.resume_vm`) and the filesystem
write (`write_tenant_env`) are external calls whose outcome is passed in as
a parameter; both are only reached after the status guard. Database writes
are modelled as journal appends. -/

/-- Manager errors, classified per the spec taxonomy; `invalidState`
carries the source's `bail!` message. -/
inductive TmError : Type
  | notFound
  | invalidState (msg : String)
  | external (msg : String)
deriving DecidableEq, Repr

structure TmState : Type where
  table : List (String × Tenant)
  dbUpdates : List (String × TenantStatus × Option Nat)
deriving DecidableEq, Repr

/-- `TenantManager::pause_tenant` (`tenant.rs` lines 418-432). -/
def pause_tenant (fcOk : Bool) (m : TmState) (id : String) :
    Except TmError TmState :=
  match alGet m.table id with
  | none => .error .notFound
  | some t =>
    if t.status ≠ TenantStatus.running then
      .error (.invalidState "tenant is not running")
    else if fcOk = false then
      .error (.external "pause_vm failed")
    else
      .ok { table := alInsert m.table id { t with status := .paused }
            dbUpdates := m.dbUpdates ++ [(id, .paused, t.vm_pid)] }

/-- `TenantManager::resume_tenant` (`tenant.rs` lines 434-448). -/
def resume_tenant (fcOk : Bool) (m : TmState) (id : String) :
    Except TmError TmState :=
  match alGet m.table id with
  | none => .error .notFound
  | some t =>
    if t.status ≠ TenantStatus.paused then
      .error (.invalidState "tenant is not paused")
    else if fcOk = false then
      .error (.external "resume_vm failed")
    else
      .ok { table := alInsert m.table id { t with status := .running }
            dbUpdates := m.dbUpdates ++ [(id, .running, t.vm_pid)] }

/-- `TenantManager::update_env` (`tenant.rs` lines 479-487): rejects while
the data volume is in guest use; on success only the volume contents change
(no table or status mutation). -/
def update_env (fsOk : Bool) (m : TmState) (id : String)
    (envVars : List (String × String)) : Except TmError TmState :=
  match alGet m.table id with
  | none => .error .notFound
  | some t =>
    if t.status = TenantStatus.running ∨ t.status = TenantStatus.paused then
      .error (.invalidState
        "tenant must be stopped before updating env (data volume is in use by VM)")
    else if fsOk = false then
      .error (.external "write_tenant_env failed")
    else
      .ok m

/-- C5: `pause_tenant` on a tenant whose status is not Running,
`resume_tenant` on a tenant whose status is not Paused, and `update_env` on
a Running or Paused tenant each fail with an `InvalidState` error; the
error return means the manager state (the tenant's status, `vm_pid`, and
every other field) is left untouched, since each guard fires before any
mutation or external call. -/
theorem C5_transition_guards :
    (∀ (fcOk : Bool) (m : TmState) (id : String) (t : Tenant),
      alGet m.table id = some t → t.status ≠ .running →
      pause_tenant fcOk m id =
        .error (.invalidState "tenant is not running")) ∧
    (∀ (fcOk : Bool) (m : TmState) (id : String) (t : Tenant),
      alGet m.table id = some t → t.status ≠ .paused →
      resume_tenant fcOk m id =
        .error (.invalidState "tenant is not paused")) ∧
    (∀ (fsOk : Bool) (m : TmState) (id : String) (t : Tenant)
      (envVars : List (String × String)),
      alGet m.table id = some t →
      (t.status = .running ∨ t.status = .paused) →
      update_env fsOk m id envVars =
        .error (.invalidState
          "tenant must be stopped before updating env (data volume is in use by VM)")) := by
  refine ⟨?_, ?_, ?_⟩
  · intro fcOk m id t hget hst
    simp [pause_tenant, hget, hst]
  · intro fcOk m id t hget hst
    simp [resume_tenant, hget, hst]
  · intro fsOk m id t envVars hget hst
    simp [update_env, hget, hst]

/-- A concrete Stopped tenant for the C5 witness. -/
def exStoppedTenant : Tenant :=
  { exDeadTenant with id := "t1", status := .stopped, vm_pid := none }

/-- Witness for C5: pausing a Stopped tenant, resuming a Running tenant,
and updating env of a Running tenant all fail with `InvalidState`. -/
theorem C5_transition_guards_witness :
    pause_tenant true
      ⟨[("t1", exStoppedTenant)], []⟩ "t1" =
      .error (.invalidState "tenant is not running") ∧
    resume_tenant true
      ⟨[("t2", exDeadTenant)], []⟩ "t2" =
      .error (.invalidState "tenant is not paused") ∧
    update_env true
      ⟨[("t2", exDeadTenant)], []⟩ "t2" [("K", "V")] =
      .error (.invalidState
        "tenant must be stopped before updating env (data volume is in use by VM)") :=
  ⟨C5_transition_guards.1 true _ "t1" exStoppedTenant (by rfl) (by decide),
   C5_transition_guards.2.1 true _ "t2" exDeadTenant (by rfl) (by decide),
   C5_transition_guards.2.2 true _ "t2" exDeadTenant [("K", "V")] (by rfl)
     (Or.inl rfl)⟩

/-! ## C9: tap-device derivation (`tenant.rs` line 217)

The source computes `format!("fc-{}", &req.tenant_id[..req.tenant_id.len().min(11)])`.
`str::len()` is the UTF-8 *byte* length and `&s[..k]` panics when `k` is
not a character boundary; the model returns `none` exactly where the slice
panics. -/

/-- UTF-8 encoded length of one character. -/
def utf8CharBytes (c : Char) : Nat :=
  if c.toNat < 0x80 then 1
  else if c.toNat < 0x800 then 2
  else if c.toNat < 0x10000 then 3
  else 4

/-- UTF-8 byte length of a string (Rust `str::len`). -/
def utf8Len (l : List Char) : Nat :=
  (l.map utf8CharBytes).sum

/-- Rust `&s[..k]`: the characters making up the first `k` bytes, or `none`
when `k` does not fall on a character boundary (a panic in Rust). -/
def takeUtf8Bytes : Nat → List Char → Option (List Char)
  | 0, _ => some []
  | _+1, [] => none
  | k+1, c :: cs =>
    if utf8CharBytes c ≤ k + 1 then
      (takeUtf8Bytes (k + 1 - utf8CharBytes c) cs).map (fun l => c :: l)
    else
      none

/-- The tap-device derivation of `create_tenant`:
`"fc-" + &tenant_id[..tenant_id.len().min(11)]`; `none` models the panic. -/
def tap_device_of (tenant_id : String) : Option String :=
  (takeUtf8Bytes (min (utf8Len tenant_id.data) 11) tenant_id.data).map
    (fun cs => "fc-" ++ String.mk cs)

/-- C9: the derivation is NOT total. For the 6-character, 12-byte tenant id
`"éééééé"` the slice index is `min 12 11 = 11`, which falls in the middle
of the sixth two-byte character, so `&tenant_id[..11]` panics (modelled as
`none`), contradicting the claim that the derivation never fails or panics
for multi-byte ids. For ASCII ids (1 byte per character) it does return
`"fc-"` plus the first `min(len, 11)` characters, as the second conjunct
at the ASCII input `"tenant-12345678"` shows. -/
theorem C9_tap_device_not_total :
    tap_device_of "éééééé" = none ∧
    utf8Len ("éééééé" : String).data = 12 ∧
    ("éééééé" : String).data.length = 6 ∧
    tap_device_of "tenant-12345678" = some "fc-tenant-1234" := by
  refine ⟨by rfl, by rfl, by rfl, by rfl⟩

/-! ## C7: MAC derivation (`firecracker.rs` lines 225-239) -/

/-- One uppercase hexadecimal digit. -/
def hexDigitChar (d : Nat) : Char :=
  if d < 10 then Char.ofNat (48 + d) else Char.ofNat (55 + d)

/-- `format!("{:02X}", n)` for `n ≤ 255` (all call sites pass a parsed
`u8`): exactly two uppercase hex digits. -/
def hex2 (n : Nat) : String :=
  String.mk [hexDigitChar (n / 16), hexDigitChar (n % 16)]

/-- The value-level arm of `generate_mac`: format when exactly four octets
survived the parse, else the fixed fallback. -/
def macFromParts : List Nat → String
  | [a, b, c, d] =>
    "06:00:" ++ hex2 a ++ ":" ++ hex2 b ++ ":" ++ hex2 c ++ ":" ++ hex2 d
  | _ => "06:00:AC:10:00:02"

/-- `generate_mac` (`firecracker.rs` lines 225-239): split on dots,
`filter_map` the `u8` parses, and format when four values remain. -/
def generate_mac (vm_ip : String) : String :=
  macFromParts ((splitOnChar '.' vm_ip.data).filterMap parseU8)

/-- Spec-side predicate (from the claim's words, for the counterexample
statement): the input is a well-formed dotted quad of four u8 octets. -/
def specDottedQuad (s : String) : Bool :=
  match splitOnChar '.' s.data with
  | [a, b, c, d] =>
    (parseU8 a).isSome && (parseU8 b).isSome && (parseU8 c).isSome &&
      (parseU8 d).isSome
  | _ => false

theorem macFromParts_not_four {l : List Nat} (h : l.length ≠ 4) :
    macFromParts l = "06:00:AC:10:00:02" := by
  match l with
  | [] => rfl
  | [_] => rfl
  | [_, _] => rfl
  | [_, _, _] => rfl
  | [_, _, _, _] => exact absurd rfl h
  | _ :: _ :: _ :: _ :: _ :: _ => rfl

theorem parseDigitsAcc_isDigit {l : List Char} {acc v : Nat}
    (h : parseDigitsAcc acc l = some v) : ∀ c ∈ l, c.isDigit = true := by
  induction l generalizing acc with
  | nil => intro c hc; cases hc
  | cons c cs ih =>
    intro d hd
    by_cases hc : c.isDigit = true
    · rcases List.mem_cons.mp hd with rfl | hd'
      · exact hc
      · exact ih (by simpa [parseDigitsAcc, hc] using h) d hd'
    · simp [parseDigitsAcc, hc] at h

theorem stripPlus_cons_ne {c : Char} {cs : List Char} (h : c ≠ '+') :
    stripPlus (c :: cs) = c :: cs := by
  unfold stripPlus
  split
  · rename_i heq
    injection heq with h1 _
    exact absurd h1 h
  · rfl

theorem mem_stripPlus {c : Char} (hne : c ≠ '+') {l : List Char}
    (hmem : c ∈ l) : c ∈ stripPlus l := by
  cases l with
  | nil => cases hmem
  | cons d ds =>
    by_cases hd : d = '+'
    · subst hd
      rw [show stripPlus ('+' :: ds) = ds from rfl]
      rcases List.mem_cons.mp hmem with rfl | h
      · exact absurd rfl hne
      · exact h
    · rw [stripPlus_cons_ne hd]
      exact hmem

theorem rustParseNat_digits {bound v : Nat} {s : List Char}
    (h : rustParseNat bound s = some v) :
    ∀ c ∈ stripPlus s, c.isDigit = true := by
  intro c hc
  unfold rustParseNat at h
  rcases hs : stripPlus s with _ | ⟨d, ds⟩
  · rw [hs] at hc; cases hc
  · rw [hs] at h hc
    rcases hacc : parseDigitsAcc 0 (d :: ds) with _ | w
    · simp [hacc] at h
    · exact parseDigitsAcc_isDigit hacc c hc

theorem parseU8_no_dot {l : List Char} {v : Nat} (h : parseU8 l = some v) :
    '.' ∉ l := by
  intro hmem
  have h' : rustParseNat 255 l = some v := h
  have hmem' : '.' ∈ stripPlus l :=
    mem_stripPlus (by decide : ('.' : Char) ≠ '+') hmem
  have := rustParseNat_digits h' '.' hmem'
  rw [show ('.' : Char).isDigit = false from by decide] at this
  cases this

/-- C7 counterexample: `"172.16.5.2.x"` is not a dotted quad of four u8
octets, yet `generate_mac` returns the formatted MAC `06:00:AC:10:05:02`
(the `filter_map` silently drops the unparsable fifth part), not the
fallback `06:00:AC:10:00:02` the claim requires for every malformed
input. -/
theorem C7_counterexample :
    specDottedQuad "172.16.5.2.x" = false ∧
    generate_mac "172.16.5.2.x" = "06:00:AC:10:05:02" ∧
    "06:00:AC:10:05:02" ≠ "06:00:AC:10:00:02" := by
  refine ⟨by rfl, by rfl, by decide⟩

/-- C7 (amended): `generate_mac` maps `"172.16.5.2"` to
`"06:00:AC:10:05:02"`; for every well-formed dotted quad `a.b.c.d` of u8
octets it yields `06:00` followed by the four octets hex-encoded; and it
yields the fixed fallback MAC exactly when the number of dot-separated
parts that parse as `u8` differs from four (not for every malformed
input). -/
theorem C7_mac_derivation :
    (∀ (sa sb sc sd : List Char) (a b c d : Nat),
      parseU8 sa = some a → parseU8 sb = some b →
      parseU8 sc = some c → parseU8 sd = some d →
      generate_mac
          (String.mk (sa ++ '.' :: (sb ++ '.' :: (sc ++ '.' :: sd)))) =
        "06:00:" ++ hex2 a ++ ":" ++ hex2 b ++ ":" ++ hex2 c ++ ":" ++
          hex2 d) ∧
    (∀ s : String,
      ((splitOnChar '.' s.data).filterMap parseU8).length ≠ 4 →
      generate_mac s = "06:00:AC:10:00:02") ∧
    generate_mac "172.16.5.2" = "06:00:AC:10:05:02" := by
  refine ⟨?_, ?_, by rfl⟩
  · intro sa sb sc sd a b c d ha hb hc hd
    have hna : '.' ∉ sa := parseU8_no_dot ha
    have hnb : '.' ∉ sb := parseU8_no_dot hb
    have hnc : '.' ∉ sc := parseU8_no_dot hc
    have hnd : '.' ∉ sd := parseU8_no_dot hd
    unfold generate_mac
    rw [show (String.mk (sa ++ '.' :: (sb ++ '.' :: (sc ++ '.' :: sd)))).data
        = sa ++ '.' :: (sb ++ '.' :: (sc ++ '.' :: sd)) from rfl]
    rw [splitOnChar_append _ _ _ hna, splitOnChar_append _ _ _ hnb,
      splitOnChar_append _ _ _ hnc, splitOnChar_no_sep _ _ hnd]
    simp [List.filterMap_cons, ha, hb, hc, hd, macFromParts]
  · intro s hlen
    unfold generate_mac
    exact macFromParts_not_four hlen

/-- Witness for C7 (amended) at the concrete quad `"172.16.5.2"` and the
concrete non-quad `"not-an-ip"`. -/
theorem C7_mac_derivation_witness :
    generate_mac (String.mk (("172" : String).data ++ '.' ::
        (("16" : String).data ++ '.' :: (("5" : String).data ++ '.' ::
        ("2" : String).data)))) =
      "06:00:" ++ hex2 172 ++ ":" ++ hex2 16 ++ ":" ++ hex2 5 ++ ":" ++
        hex2 2 ∧
    generate_mac "not-an-ip" = "06:00:AC:10:00:02" :=
  ⟨C7_mac_derivation.1 _ _ _ _ 172 16 5 2 (by rfl) (by rfl) (by rfl)
      (by rfl),
   C7_mac_derivation.2.1 "not-an-ip" (by decide)⟩

/-! ## C8: metrics coherence (`api.rs` lines 225-246) -/

/-- The gauge values computed by the `/metrics` handler. -/
structure MetricsGauges : Type where
  total : Nat
  running : Nat
  stopped : Nat
  paused : Nat
deriving DecidableEq, Repr

/-- `metrics` (`api.rs` lines 225-233): the handler counts only the
Running, Stopped and Paused statuses. -/
def metrics (tenants : List Tenant) : MetricsGauges :=
  { total := tenants.length
    running := (tenants.filter (fun t => t.status == .running)).length
    stopped := (tenants.filter (fun t => t.status == .stopped)).length
    paused := (tenants.filter (fun t => t.status == .paused)).length }

/-- The Prometheus text body (`api.rs` lines 234-243). -/
def metricsBody (g : MetricsGauges) : String :=
  "# HELP microclaw_tenants_total Total number of tenants\n" ++
  "# TYPE microclaw_tenants_total gauge\n" ++
  "microclaw_tenants_total " ++ toString g.total ++ "\n" ++
  "# HELP microclaw_tenants_by_status Tenants by status\n" ++
  "# TYPE microclaw_tenants_by_status gauge\n" ++
  "microclaw_tenants_by_status\x7bstatus=\"running\"\x7d " ++
    toString g.running ++ "\n" ++
  "microclaw_tenants_by_status\x7bstatus=\"stopped\"\x7d " ++
    toString g.stopped ++ "\n" ++
  "microclaw_tenants_by_status\x7bstatus=\"paused\"\x7d " ++
    toString g.paused ++ "\n"

theorem metrics_partition (tenants : List Tenant) :
    (metrics tenants).running + (metrics tenants).stopped +
      (metrics tenants).paused +
      ((tenants.filter (fun t => t.status == .creating)).length +
        (tenants.filter (fun t => t.status == .failed)).length) =
      (metrics tenants).total := by
  induction tenants with
  | nil => rfl
  | cons t ts ih =>
    simp only [metrics] at ih ⊢
    cases h : t.status <;>
      simp [List.filter_cons, h, List.length_cons] <;> omega

/-- A concrete Failed tenant. -/
def exFailedTenant : Tenant :=
  { exDeadTenant with id := "t3", status := .failed, vm_pid := none }

/-- C8 counterexample: with a single Failed tenant the three
`microclaw_tenants_by_status` gauges sum to 0 while
`microclaw_tenants_total` is 1 — the handler emits no gauge for Creating
or Failed, so the sums differ exactly when such tenants exist. -/
theorem C8_counterexample :
    (metrics [exFailedTenant]).running + (metrics [exFailedTenant]).stopped +
        (metrics [exFailedTenant]).paused = 0 ∧
    (metrics [exFailedTenant]).total = 1 := by
  exact ⟨by rfl, by rfl⟩

/-- C8 (amended): the `microclaw_tenants_by_status` gauges sum to the
number of tenants whose status is Running, Stopped or Paused; together
with the (unreported) Creating and Failed counts they sum to
`microclaw_tenants_total`, so the gauges sum to the total exactly on
tables with no Creating and no Failed tenant — not on every table. -/
theorem C8_metrics_coherence (tenants : List Tenant) :
    ((metrics tenants).running + (metrics tenants).stopped +
      (metrics tenants).paused +
      ((tenants.filter (fun t => t.status == .creating)).length +
        (tenants.filter (fun t => t.status == .failed)).length) =
      (metrics tenants).total) ∧
    ((∀ t ∈ tenants, t.status ≠ .creating ∧ t.status ≠ .failed) →
      (metrics tenants).running + (metrics tenants).stopped +
        (metrics tenants).paused = (metrics tenants).total) := by
  refine ⟨metrics_partition tenants, fun hall => ?_⟩
  have hc : tenants.filter (fun t => t.status == .creating) = [] := by
    rw [List.filter_eq_nil]
    intro t ht
    simp [(hall t ht).1]
  have hf : tenants.filter (fun t => t.status == .failed) = [] := by
    rw [List.filter_eq_nil]
    intro t ht
    simp [(hall t ht).2]
  have := metrics_partition tenants
  rw [hc, hf] at this
  simpa using this

/-- Witness for C8 (amended): a table with one Running and one Stopped
tenant, where the gauges do sum to the total. -/
theorem C8_metrics_coherence_witness :
    (metrics [exDeadTenant, exStoppedTenant]).running +
      (metrics [exDeadTenant, exStoppedTenant]).stopped +
      (metrics [exDeadTenant, exStoppedTenant]).paused =
      (metrics [exDeadTenant, exStoppedTenant]).total :=
  (C8_metrics_coherence [exDeadTenant, exStoppedTenant]).2 (by decide)

/-! ## C3: proxy middleware (`proxy.rs` lines 16-68)

HTTP requests are modelled with the method, URI path and query, a header
multimap (hyper normalises header names to lowercase, so names are plain
lowercase strings; header values are Lean `String`s, which are valid UTF-8
by construction — the 400 branch for a non-UTF-8 `x-tenant-id` value is
outside the model), and an opaque body. `HeaderMap::get` returns the first
value for a name, `remove` drops every value for the name, and `insert`
replaces all values for the name with the single new one. -/

structure HttpRequest : Type where
  method : String
  path : String
  query : Option String
  headers : List (String × String)
  body : String
deriving DecidableEq, Repr

/-- `HeaderMap::insert`: drop all values for the name, add the new one. -/
def headerInsert (hs : List (String × String)) (name value : String) :
    List (String × String) :=
  alRemove hs name ++ [(name, value)]

inductive ProxyOutcome : Type
  | passThrough (req : HttpRequest)
  | badRequest
  | notFound
  | forward (uri : String) (req : HttpRequest)
deriving DecidableEq, Repr

/-- `proxy_middleware` (`proxy.rs` lines 16-68): with an `x-tenant-id`
header naming a known tenant, forward to
`http://<vm_ip>:8080<path>[?query]` with the header stripped and `Host`
overwritten; with no such header, pass through to the control API. The
transport leg (502 on connect failure) is outside the pure model: the
`forward` outcome carries the upstream request as built. -/
def proxy_middleware (table : List (String × Tenant)) (req : HttpRequest) :
    ProxyOutcome :=
  match alGet req.headers "x-tenant-id" with
  | none => .passThrough req
  | some tid =>
    match alGet table tid with
    | none => .notFound
    | some t =>
      let query := match req.query with
        | some q => "?" ++ q
        | none => ""
      let uri := "http://" ++ t.vm_ip ++ ":8080" ++ req.path ++ query
      .forward uri
        { req with
          headers := headerInsert (alRemove req.headers "x-tenant-id")
            "host" (t.vm_ip ++ ":8080") }

theorem alContains_remove_self {α : Type} (hs : List (String × α))
    (n : String) : alContains (alRemove hs n) n = false := by
  refine List.any_eq_false.mpr ?_
  intro p hp
  have h2 := (List.mem_filter.mp hp).2
  intro hc
  rw [show p.1 = n from by simpa using hc] at h2
  simp at h2

theorem alGet_remove_ne {α : Type} (hs : List (String × α)) {n m : String}
    (h : n ≠ m) : alGet (alRemove hs n) m = alGet hs m := by
  induction hs with
  | nil => rfl
  | cons p ps ih =>
    by_cases hpm : (p.1 == m) = true
    · have hpm' : p.1 = m := by simpa using hpm
      have hpn : (p.1 != n) = true := by
        simp [bne, hpm']
        exact fun he => h he.symm
      simp only [alRemove, List.filter_cons, hpn, if_true, alGet,
        List.find?, hpm]
    · have hpmf : (p.1 == m) = false := by simpa using hpm
      by_cases hpn : (p.1 != n) = true
      · have hih := ih
        simp only [alRemove, alGet] at hih ⊢
        simp only [List.filter_cons, hpn, if_true, List.find?, hpmf]
        exact hih
      · have hpnf : (p.1 != n) = false := by simpa using hpn
        have hih := ih
        simp only [alRemove, alGet] at hih ⊢
        simp only [List.filter_cons, hpnf, Bool.false_eq_true, if_false]
        rw [hih]
        simp only [List.find?, hpmf]

/-- Values of one header survive the removal of a different header. -/
theorem filter_key_of_remove {α : Type} (hs : List (String × α))
    {n a : String} (h : n ≠ a) :
    (alRemove hs a).filter (fun p => p.1 == n) =
      hs.filter (fun p => p.1 == n) := by
  induction hs with
  | nil => rfl
  | cons p ps ih =>
    by_cases hpn : (p.1 == n) = true
    · have hpn' : p.1 = n := by simpa using hpn
      have hpa : (p.1 != a) = true := by
        simp [bne, hpn']
        exact h
      simp only [alRemove] at ih ⊢
      simp [List.filter_cons, hpa, hpn, ih]
    · have hpnf : (p.1 == n) = false := by simpa using hpn
      by_cases hpa : (p.1 != a) = true
      · simp only [alRemove] at ih ⊢
        simp [List.filter_cons, hpa, hpnf, ih]
      · simp only [alRemove] at ih ⊢
        simp [List.filter_cons, hpa, hpnf, ih]

/-- C3: a request whose `x-tenant-id` header names a tenant in the table
is forwarded to `http://<vm_ip>:8080<path>[?query]` with the same path and
query, the `x-tenant-id` header removed, `Host` overwritten to
`<vm_ip>:8080`, and the method, body, and every other header's values
preserved; a request without the header passes through unchanged. -/
theorem C3_proxy_rewrite :
    (∀ (table : List (String × Tenant)) (req : HttpRequest)
      (tid : String) (t : Tenant),
      alGet req.headers "x-tenant-id" = some tid →
      alGet table tid = some t →
      ∃ fwd : HttpRequest,
        proxy_middleware table req =
          .forward
            ("http://" ++ t.vm_ip ++ ":8080" ++ req.path ++
              (match req.query with | some q => "?" ++ q | none => ""))
            fwd ∧
        fwd.method = req.method ∧ fwd.path = req.path ∧
        fwd.query = req.query ∧ fwd.body = req.body ∧
        alGet fwd.headers "x-tenant-id" = none ∧
        alGet fwd.headers "host" = some (t.vm_ip ++ ":8080") ∧
        (∀ n : String, n ≠ "x-tenant-id" → n ≠ "host" →
          fwd.headers.filter (fun p => p.1 == n) =
            req.headers.filter (fun p => p.1 == n))) ∧
    (∀ (table : List (String × Tenant)) (req : HttpRequest),
      alGet req.headers "x-tenant-id" = none →
      proxy_middleware table req = .passThrough req) := by
  constructor
  · intro table req tid t h1 h2
    refine ⟨{ req with
      headers := headerInsert (alRemove req.headers "x-tenant-id") "host"
        (t.vm_ip ++ ":8080") }, ?_, rfl, rfl, rfl, rfl, ?_, ?_, ?_⟩
    · simp only [proxy_middleware, h1, h2]
    · show alGet (alRemove (alRemove req.headers "x-tenant-id") "host" ++
        [("host", t.vm_ip ++ ":8080")]) "x-tenant-id" = none
      rw [alGet_append_single_ne _ _ (by decide : "host" ≠ "x-tenant-id")]
      rw [alGet_remove_ne _ (by decide : "host" ≠ "x-tenant-id")]
      exact alGet_of_not_contains (alContains_remove_self _ _)
    · show alGet (alRemove (alRemove req.headers "x-tenant-id") "host" ++
        [("host", t.vm_ip ++ ":8080")]) "host" =
        some (t.vm_ip ++ ":8080")
      exact alGet_append_single_self _ (alContains_remove_self _ _)
    · intro n hn1 hn2
      show ((alRemove (alRemove req.headers "x-tenant-id") "host" ++
        [("host", t.vm_ip ++ ":8080")]).filter (fun p => p.1 == n)) =
        req.headers.filter (fun p => p.1 == n)
      rw [List.filter_append]
      rw [show ([("host", t.vm_ip ++ ":8080")].filter
          (fun p => p.1 == n)) = [] from by
        simp [beq_eq_false_iff_ne.mpr (fun he => hn2 he.symm)]]
      rw [List.append_nil, filter_key_of_remove _ hn2,
        filter_key_of_remove _ hn1]
  · intro table req h
    simp [proxy_middleware, h]

/-- Witness for C3: a concrete forwarded request and a concrete
pass-through. -/
theorem C3_proxy_rewrite_witness :
    (∃ fwd : HttpRequest,
      proxy_middleware [("t2", exDeadTenant)]
          { method := "GET", path := "/foo", query := some "x=1",
            headers := [("x-tenant-id", "t2"), ("accept", "text/plain")],
            body := "B" } =
        .forward
          ("http://" ++ exDeadTenant.vm_ip ++ ":8080" ++ "/foo" ++
            (match (some "x=1" : Option String) with
              | some q => "?" ++ q
              | none => ""))
          fwd ∧
      fwd.method = "GET" ∧ fwd.path = "/foo" ∧
      fwd.query = some "x=1" ∧ fwd.body = "B" ∧
      alGet fwd.headers "x-tenant-id" = none ∧
      alGet fwd.headers "host" = some (exDeadTenant.vm_ip ++ ":8080") ∧
      (∀ n : String, n ≠ "x-tenant-id" → n ≠ "host" →
        fwd.headers.filter (fun p => p.1 == n) =
          [("x-tenant-id", "t2"), ("accept", "text/plain")].filter
            (fun p => p.1 == n))) ∧
    proxy_middleware [("t2", exDeadTenant)]
        { method := "GET", path := "/bar", query := none,
          headers := [("accept", "text/plain")], body := "B" } =
      .passThrough
        { method := "GET", path := "/bar", query := none,
          headers := [("accept", "text/plain")], body := "B" } :=
  ⟨C3_proxy_rewrite.1 [("t2", exDeadTenant)] _ "t2" exDeadTenant rfl rfl,
   C3_proxy_rewrite.2 [("t2", exDeadTenant)] _ rfl⟩

/-! ## C4: store round-trip (`db.rs`)

The `tenants` table row is modelled as the tuple of stored column values:
enums as their `tier_to_str` / `status_to_str` strings, `channels` as its
`serde_json` string, `skip_tool_approval` as the stored integer, and
`created_at` as its textual timestamp. `serde_json` for `Vec<String>` is
modelled by a real escaping encoder and parser (escaping `"` and `\`, the
only characters that collide with the syntax); chrono's exact
`to_rfc3339` / `parse_from_rfc3339` pair is modelled by rendering the
abstract instant in decimal and parsing it back (both are injective
textual codecs whose parse totally inverts the format on its image, with a
fallback on parse failure, exactly as in the source). -/

def tier_to_str : Tier → String
  | .free => "Free"
  | .pro => "Pro"
  | .team => "Team"
  | .enterprise => "Enterprise"

def str_to_tier (s : String) : Tier :=
  match s with
  | "Free" => .free
  | "Pro" => .pro
  | "Team" => .team
  | "Enterprise" => .enterprise
  | _ => .free

def status_to_str : TenantStatus → String
  | .creating => "Creating"
  | .running => "Running"
  | .stopped => "Stopped"
  | .paused => "Paused"
  | .failed => "Failed"

def str_to_status (s : String) : TenantStatus :=
  match s with
  | "Creating" => .creating
  | "Running" => .running
  | "Stopped" => .stopped
  | "Paused" => .paused
  | "Failed" => .failed
  | _ => .failed

def quoteChar : Char := Char.ofNat 34

def backslashChar : Char := Char.ofNat 92

/-- JSON string escaping for the two syntax-colliding characters. -/
def escChar (c : Char) : List Char :=
  if c = quoteChar ∨ c = backslashChar then [backslashChar, c] else [c]

/-- Body of a JSON string (escaped characters then the closing quote). -/
def encStrBody : List Char → List Char
  | [] => [quoteChar]
  | c :: cs => escChar c ++ encStrBody cs

def encodeJsonStr (s : String) : List Char :=
  quoteChar :: encStrBody s.data

def encItems : List String → List Char
  | [] => []
  | [s] => encodeJsonStr s
  | s :: rest => encodeJsonStr s ++ ',' :: encItems rest

/-- `serde_json::to_string` for a `Vec<String>`. -/
def jsonEncodeStrList (l : List String) : String :=
  String.mk ('[' :: (encItems l ++ [']']))

/-- Parse a JSON string body up to the closing quote, unescaping. -/
def parseStrBody : List Char → Option (List Char × List Char)
  | [] => none
  | c :: rest =>
    if c = quoteChar then some ([], rest)
    else if c = backslashChar then
      match rest with
      | [] => none
      | c2 :: rest2 => (parseStrBody rest2).map (fun p => (c2 :: p.1, p.2))
    else (parseStrBody rest).map (fun p => (c :: p.1, p.2))

/-- Parse one or more comma-separated JSON strings up to the closing
bracket (fuelled). -/
def parseItemsF : Nat → List Char → Option (List String × List Char)
  | 0, _ => none
  | fuel+1, cs =>
    match cs with
    | [] => none
    | c :: rest =>
      if c = quoteChar then
        match parseStrBody rest with
        | none => none
        | some (s, rest2) =>
          match rest2 with
          | ',' :: rest3 =>
            (parseItemsF fuel rest3).map (fun p => (String.mk s :: p.1, p.2))
          | ']' :: rest3 => some ([String.mk s], rest3)
          | _ => none
      else none

/-- `serde_json::from_str::<Vec<String>>`. -/
def jsonDecodeStrList (j : String) : Option (List String) :=
  match j.data with
  | '[' :: rest =>
    if rest = [']'] then some []
    else
      match parseItemsF (rest.length + 1) rest with
      | some (l, []) => some l
      | _ => none
  | _ => none

def decDigitChar (d : Nat) : Char := Char.ofNat (48 + d)

def decCharVal (c : Nat) : Nat := c - 48

/-- Decimal rendering of the abstract timestamp (the model of
`created_at.to_rfc3339()`). -/
def natToDecimal (n : Nat) : List Char :=
  ((Nat.digits 10 n).map decDigitChar).reverse

/-- Total inverse on the image (the model of
`DateTime::parse_from_rfc3339`): `none` on any non-digit input. -/
def parseDecimal (l : List Char) : Option Nat :=
  if l.all Char.isDigit then
    some (Nat.ofDigits 10 ((l.map (fun c => decCharVal c.toNat)).reverse))
  else
    none

theorem parseStrBody_enc (s : List Char) (tail : List Char) :
    parseStrBody (encStrBody s ++ tail) = some (s, tail) := by
  induction s with
  | nil =>
    show parseStrBody (quoteChar :: tail) = some ([], tail)
    rw [parseStrBody.eq_def]
    simp
  | cons c cs ih =>
    by_cases hq : c = quoteChar ∨ c = backslashChar
    · simp only [encStrBody, escChar, hq, if_true, List.cons_append,
        List.append_assoc]
      rw [parseStrBody.eq_def]
      simp [show ¬ backslashChar = quoteChar from by decide, ih]
    · push_neg at hq
      simp only [encStrBody, escChar, hq.1, hq.2, or_self, if_false,
        List.cons_append]
      rw [parseStrBody.eq_def]
      simp [hq.1, hq.2, ih]

theorem String.mk_data (s : String) : String.mk s.data = s := rfl

theorem parseItemsF_enc (l : List String) (hl : l ≠ []) :
    ∀ (tail : List Char) (fuel : Nat), l.length ≤ fuel →
    parseItemsF fuel (encItems l ++ ']' :: tail) = some (l, tail) := by
  induction l with
  | nil => exact absurd rfl hl
  | cons s rest ih =>
    intro tail fuel hfuel
    cases fuel with
    | zero => simp at hfuel
    | succ f =>
      cases rest with
      | nil =>
        simp only [encItems, encodeJsonStr, List.cons_append, parseItemsF,
          eq_self_iff_true, if_true]
        rw [parseStrBody_enc]
        simp [String.mk_data]
      | cons s2 rest2 =>
        have hlen : (s2 :: rest2).length ≤ f := by
          simp only [List.length_cons] at hfuel ⊢
          omega
        have hih := ih (by simp) tail f hlen
        simp only [encItems, encodeJsonStr, List.cons_append,
          List.append_assoc, parseItemsF, eq_self_iff_true, if_true]
        rw [parseStrBody_enc]
        simp [hih, String.mk_data]

theorem encItems_length_ge (l : List String) (hl : l ≠ []) :
    l.length ≤ (encItems l).length := by
  induction l with
  | nil => exact absurd rfl hl
  | cons s rest ih =>
    cases rest with
    | nil => simp [encItems, encodeJsonStr]
    | cons s2 rest2 =>
      have := ih (by simp)
      simp only [encItems, encodeJsonStr, List.length_append,
        List.length_cons] at this ⊢
      omega

theorem jsonDecode_encode (l : List String) :
    jsonDecodeStrList (jsonEncodeStrList l) = some l := by
  cases l with
  | nil => rfl
  | cons s rest =>
    obtain ⟨Y, hY⟩ : ∃ Y, encItems (s :: rest) = quoteChar :: Y := by
      cases rest <;> exact ⟨_, rfl⟩
    have hni : (encItems (s :: rest) ++ [']'] : List Char) ≠ [']'] := by
      rw [hY, List.cons_append]
      intro hcon
      injection hcon with h1 _
      exact absurd h1 (by decide)
    have hfuel : (s :: rest).length ≤
        (encItems (s :: rest) ++ [']'] : List Char).length + 1 := by
      have := encItems_length_ge (s :: rest) (by simp)
      simp only [List.length_append, List.length_cons] at this ⊢
      omega
    show jsonDecodeStrList
      (String.mk ('[' :: (encItems (s :: rest) ++ [']']))) = some (s :: rest)
    rw [jsonDecodeStrList.eq_def]
    simp only [String.mk_data]
    rw [if_neg hni, parseItemsF_enc (s :: rest) (by simp) [] _ hfuel]

theorem decDigitChar_isDigit {d : Nat} (h : d < 10) :
    (decDigitChar d).isDigit = true := by
  interval_cases d <;> decide

theorem decCharVal_decDigitChar {d : Nat} (h : d < 10) :
    decCharVal (decDigitChar d).toNat = d := by
  interval_cases d <;> decide

theorem parseDecimal_natToDecimal (n : Nat) :
    parseDecimal (natToDecimal n) = some n := by
  have hdig : ∀ d ∈ Nat.digits 10 n, d < 10 := fun d hd =>
    Nat.digits_lt_base (by norm_num) hd
  have hall : (natToDecimal n).all Char.isDigit = true := by
    rw [natToDecimal, List.all_eq_true]
    intro c hc
    rw [List.mem_reverse] at hc
    rcases List.mem_map.mp hc with ⟨d, hd, rfl⟩
    exact decDigitChar_isDigit (hdig d hd)
  have hmap : List.map (fun c => decCharVal c.toNat)
      (List.map decDigitChar (Nat.digits 10 n)) = Nat.digits 10 n := by
    rw [List.map_map]
    refine (List.map_congr_left ?_).trans (List.map_id _)
    exact fun d hd => decCharVal_decDigitChar (hdig d hd)
  unfold parseDecimal
  rw [if_pos hall]
  rw [show natToDecimal n =
    ((Nat.digits 10 n).map decDigitChar).reverse from rfl]
  rw [List.map_reverse, List.reverse_reverse, hmap, Nat.ofDigits_digits]

/-! ### The `tenants` table row and the Store operations -/

/-- One stored row of the `tenants` table, as bound by `insert_tenant`
(`db.rs` lines 35-57): enums and the timestamp in their textual encodings,
`skip_tool_approval` as the stored integer. -/
structure TenantRow : Type where
  id : String
  tier_str : String
  status_str : String
  vm_ip : String
  gateway_ip : String
  tap_device : String
  socket_path : String
  data_dir : String
  vm_pid : Option Nat
  channels_json : String
  skip_tool_approval_int : Int
  created_at_str : String
deriving DecidableEq, Repr

inductive DbErr : Type
  | duplicate
deriving DecidableEq, Repr

/-- The column encoding performed by `Database::insert_tenant`
(`db.rs` lines 41-54). -/
def encodeTenantRow (t : Tenant) : TenantRow :=
  { id := t.id
    tier_str := tier_to_str t.tier
    status_str := status_to_str t.status
    vm_ip := t.vm_ip
    gateway_ip := t.gateway_ip
    tap_device := t.tap_device
    socket_path := t.socket_path
    data_dir := t.data_dir
    vm_pid := t.vm_pid
    channels_json := jsonEncodeStrList t.channels
    skip_tool_approval_int := if t.skip_tool_approval then 1 else 0
    created_at_str := String.mk (natToDecimal t.created_at) }

/-- `Database::insert_tenant`: fails when the primary key exists, else
appends the encoded row. -/
def insert_tenant (db : List TenantRow) (t : Tenant) :
    Except DbErr (List TenantRow) :=
  if db.any (fun r => r.id == t.id) then .error .duplicate
  else .ok (db ++ [encodeTenantRow t])

/-- The row materialisation performed by `Database::load_all_tenants`
(`db.rs` lines 111-130): enum strings mapped back (unknown → Failed/Free),
channels via `serde_json ... .unwrap_or_default()`, timestamp parsed with
a now-fallback (`unwrap_or_else(Utc::now)`), `skip_tool_approval` by
`!= 0`. -/
def decodeTenantRow (now : Nat) (r : TenantRow) : Tenant :=
  { id := r.id
    tier := str_to_tier r.tier_str
    status := str_to_status r.status_str
    vm_ip := r.vm_ip
    gateway_ip := r.gateway_ip
    tap_device := r.tap_device
    socket_path := r.socket_path
    data_dir := r.data_dir
    vm_pid := r.vm_pid
    channels := (jsonDecodeStrList r.channels_json).getD []
    created_at := (parseDecimal r.created_at_str.data).getD now
    skip_tool_approval := r.skip_tool_approval_int != 0 }

/-- `Database::load_all_tenants`: materialise every stored row. -/
def load_all_tenants (now : Nat) (db : List TenantRow) : List Tenant :=
  db.map (decodeTenantRow now)

theorem str_to_tier_roundtrip (x : Tier) : str_to_tier (tier_to_str x) = x := by
  cases x <;> rfl

theorem str_to_status_roundtrip (x : TenantStatus) :
    str_to_status (status_to_str x) = x := by
  cases x <;> rfl

theorem decode_encode_tenant (now : Nat) (t : Tenant) :
    decodeTenantRow now (encodeTenantRow t) = t := by
  unfold decodeTenantRow encodeTenantRow
  have hskip : ((if t.skip_tool_approval then (1 : Int) else 0) != 0) =
      t.skip_tool_approval := by
    cases h : t.skip_tool_approval <;> simp
  have hca : (parseDecimal
      (String.mk (natToDecimal t.created_at)).data).getD now =
      t.created_at := by
    rw [show (String.mk (natToDecimal t.created_at)).data =
      natToDecimal t.created_at from rfl]
    rw [parseDecimal_natToDecimal]
    rfl
  simp only [str_to_tier_roundtrip, str_to_status_roundtrip,
    jsonDecode_encode, Option.getD_some, hskip, hca]

/-- C4: inserting a tenant with `Store.insert` and reading back with
`load_all` yields a tenant equal to the original on all attributes —
including the timestamp, whose textual codec round-trips exactly (hence at
least to second precision). Stated for every database state on which the
insert succeeds. -/
theorem C4_store_roundtrip (db : List TenantRow) (t : Tenant) (now : Nat)
    (db' : List TenantRow) (h : insert_tenant db t = .ok db') :
    load_all_tenants now db' = load_all_tenants now db ++ [t] := by
  unfold insert_tenant at h
  by_cases hdup : db.any (fun r => r.id == t.id)
  · simp [hdup] at h
  · rw [if_neg hdup] at h
    injection h with h
    subst h
    unfold load_all_tenants
    rw [List.map_append]
    simp [decode_encode_tenant]

/-- Witness for C4: inserting the concrete tenant into the empty store and
loading it back. -/
theorem C4_store_roundtrip_witness :
    load_all_tenants 0 ([] ++ [encodeTenantRow exDeadTenant]) =
      load_all_tenants 0 [] ++ [exDeadTenant] :=
  C4_store_roundtrip [] exDeadTenant 0 ([] ++ [encodeTenantRow exDeadTenant])
    rfl

end Microclaw
